import Mathlib

/-!
Verification of the replicache-client core against its design document.

The Go sources of the db package (db.go, rebase.go, request_sync.go) are
embedded shallowly: pure Lean functions mirror the Go control flow, machine
integers become Nat with reduction modulo 2 ^ 128 where the checksum
arithmetic wraps, and fallible Go code returns Except / Option.  Parts of the
repository that live outside the db package (the commit model of commit.go)
and the external collaborators (the kv checksummed map and the canonical-JSON
codec from diff-server, the common-ancestor search from noms) are modelled
from the design document; their doc comments say so explicitly.
-/

namespace Replicache

mutual

/-- Modelled from the spec: a canonical JSON value (design document section 3).
Numbers are modelled as integers (noms float normalization is out of scope);
object fields carry their stored order, which the canonical form keeps
lexicographically sorted. -/
inductive Json where
  | null
  | bool (b : Bool)
  | num (n : Int)
  | str (s : String)
  | arr (xs : JList)
  | obj (fs : JFields)
deriving DecidableEq

/-- Elements of a JSON array. -/
inductive JList where
  | nil
  | cons (hd : Json) (tl : JList)
deriving DecidableEq

/-- Fields of a JSON object. -/
inductive JFields where
  | fnil
  | fcons (k : String) (v : Json) (tl : JFields)
deriving DecidableEq

end

/-- Decimal digit test on a character. -/
def isDigitCh (c : Char) : Bool := 48 ≤ c.toNat && c.toNat ≤ 57

/-- strings.HasPrefix, stated over the character lists so the kernel can
evaluate it. -/
def strStarts (pre s : String) : Bool := pre.toList.isPrefixOf s.toList

/-- Drop the first n characters of a string. -/
def strDrop (s : String) (n : Nat) : String := String.mk (s.toList.drop n)

/-- Decidable equality for Except values, for evaluating results on concrete
inputs. -/
instance {ε α : Type} [DecidableEq ε] [DecidableEq α] :
    DecidableEq (Except ε α)
  | .error a, .error b =>
      if h : a = b then .isTrue (by rw [h])
      else .isFalse (fun he => h (by cases he; rfl))
  | .ok a, .ok b =>
      if h : a = b then .isTrue (by rw [h])
      else .isFalse (fun he => h (by cases he; rfl))
  | .error _, .ok _ => .isFalse (fun he => Except.noConfusion he)
  | .ok _, .error _ => .isFalse (fun he => Except.noConfusion he)

/-- Canonical JSON escaping of one character inside a string literal (the
model covers the quote and backslash escapes). -/
def escChar (c : Char) : List Char :=
  if c = '"' ∨ c = '\\' then ['\\', c] else [c]

/-- Serialized body of a JSON string literal (between the quotes). -/
def serStrBody (s : List Char) : List Char := s.flatMap escChar

/-- A JSON string literal with its quotes. -/
def serQuoted (s : String) : List Char := '"' :: (serStrBody s.toList ++ ['"'])

/-- Decimal digits of a natural number, most significant first; structural on
a fuel argument so the kernel can evaluate it (fuel n + 1 always suffices). -/
def natCharsAux : Nat → Nat → List Char
  | 0, _ => []
  | fuel + 1, n =>
      if n < 10 then [Char.ofNat (48 + n)]
      else natCharsAux fuel (n / 10) ++ [Char.ofNat (48 + n % 10)]

/-- Decimal digits of a natural number, most significant first. -/
def natChars (n : Nat) : List Char := natCharsAux (n + 1) n

/-- Decimal form of an integer: optional minus sign, then digits. -/
def intChars (i : Int) : List Char :=
  if i < 0 then '-' :: natChars i.natAbs else natChars i.natAbs

mutual

/-- Modelled from the spec: the canonical JSON serializer (no insignificant
whitespace; design document section 3). -/
def serJ : Json → List Char
  | .null => "null".toList
  | .bool b => (cond b "true" "false").toList
  | .num i => intChars i
  | .str s => serQuoted s
  | .arr xs => '[' :: (serItems xs ++ [']'])
  | .obj fs => '\x7b' :: (serFields fs ++ ['\x7d'])

def serItems : JList → List Char
  | .nil => []
  | .cons x .nil => serJ x
  | .cons x (.cons y tl) => serJ x ++ ',' :: serItems (.cons y tl)

def serFields : JFields → List Char
  | .fnil => []
  | .fcons k v .fnil => serQuoted k ++ ':' :: serJ v
  | .fcons k v (.fcons k1 v1 tl) =>
      serQuoted k ++ ':' :: serJ v ++ ',' :: serFields (.fcons k1 v1 tl)

end

/-- Render a JSON value to its canonical byte string. -/
def toJSONStr (v : Json) : String := String.mk (serJ v)

/-- Parse the body of a JSON string literal after the opening quote, undoing
the escaping; returns the body and the remaining input. -/
def parseStrBody : List Char → Option (List Char × List Char)
  | [] => none
  | c :: rest =>
      if c = '"' then some ([], rest)
      else if c = '\\' then
        match rest with
        | [] => none
        | c2 :: rest2 =>
            if c2 = '"' ∨ c2 = '\\' then
              (parseStrBody rest2).map (fun p => (c2 :: p.1, p.2))
            else none
      else (parseStrBody rest).map (fun p => (c :: p.1, p.2))

/-- Split a leading run of decimal digits off the input. -/
def takeDigitsL : List Char → List Char × List Char
  | [] => ([], [])
  | c :: rest =>
      if isDigitCh c then
        let p := takeDigitsL rest
        (c :: p.1, p.2)
      else ([], c :: rest)

/-- Numeric value of a digit run. -/
def digitsVal (ds : List Char) : Nat :=
  ds.foldl (fun a c => a * 10 + (c.toNat - 48)) 0

/-- An input that cannot extend a digit run: empty, or headed by a
non-digit. -/
def noDigitHead : List Char → Bool
  | [] => true
  | c :: _ => !(isDigitCh c)

/-- Parse a negative number after its minus sign. -/
def parseNeg (cs : List Char) : Option (Json × List Char) :=
  match takeDigitsL cs with
  | ([], _) => none
  | (d :: ds, r) => some (.num (-(digitsVal (d :: ds) : Int)), r)

/-- Parse one of the literal keywords null, true, false from its first
character and the remaining input. -/
def parseKw (c : Char) (rest : List Char) : Option (Json × List Char) :=
  if c = 'n' then
    match rest with
    | 'u' :: 'l' :: 'l' :: r => some (.null, r)
    | _ => none
  else if c = 't' then
    match rest with
    | 'r' :: 'u' :: 'e' :: r => some (.bool true, r)
    | _ => none
  else if c = 'f' then
    match rest with
    | 'a' :: 'l' :: 's' :: 'e' :: r => some (.bool false, r)
    | _ => none
  else none

mutual

/-- Modelled from the spec: a parser for canonical JSON (total via fuel;
enough fuel is one more than the input length). -/
def parseVal : Nat → List Char → Option (Json × List Char)
  | 0, _ => none
  | fuel + 1, cs =>
      match cs with
      | [] => none
      | c :: rest =>
          if isDigitCh c then
            let p := takeDigitsL (c :: rest)
            some (.num (digitsVal p.1 : Int), p.2)
          else if c = '-' then parseNeg rest
          else if c = '"' then
            (parseStrBody rest).map (fun p => (.str (String.mk p.1), p.2))
          else if c = '[' then
            match rest with
            | [] => none
            | c2 :: r2 =>
                if c2 = ']' then some (.arr .nil, r2)
                else (parseItems fuel (c2 :: r2)).map (fun p => (.arr p.1, p.2))
          else if c = '\x7b' then
            match rest with
            | [] => none
            | c2 :: r2 =>
                if c2 = '\x7d' then some (.obj .fnil, r2)
                else (parseFields fuel (c2 :: r2)).map (fun p => (.obj p.1, p.2))
          else parseKw c rest

def parseItems : Nat → List Char → Option (JList × List Char)
  | 0, _ => none
  | fuel + 1, cs =>
      match parseVal fuel cs with
      | none => none
      | some (v, r) =>
          match r with
          | ',' :: r1 => (parseItems fuel r1).map (fun p => (.cons v p.1, p.2))
          | ']' :: r1 => some (.cons v .nil, r1)
          | _ => none

def parseFields : Nat → List Char → Option (JFields × List Char)
  | 0, _ => none
  | fuel + 1, cs =>
      match cs with
      | '"' :: r =>
          match parseStrBody r with
          | none => none
          | some (kcs, r1) =>
              match r1 with
              | ':' :: r2 =>
                  match parseVal fuel r2 with
                  | none => none
                  | some (v, r3) =>
                      match r3 with
                      | ',' :: r4 =>
                          (parseFields fuel r4).map
                            (fun p => (.fcons (String.mk kcs) v p.1, p.2))
                      | '\x7d' :: r4 =>
                          some (.fcons (String.mk kcs) v .fnil, r4)
                      | _ => none
              | _ => none
      | _ => none

end

/-- Parse a complete canonical JSON document (the whole input must be one
value). -/
def parseFull (s : String) : Option Json :=
  match parseVal (s.length + 1) s.toList with
  | some (v, []) => some v
  | _ => none

/-- Modelled from the spec: nomsjson.Canonicalize — parse the input and
re-render it canonically; fails on malformed JSON. -/
def canonicalize (s : String) : Option String := (parseFull s).map toJSONStr

/-- Modelled from the spec: nomsjson.FromJSON — decode a JSON byte string to
the stored value form. -/
def fromJSON (s : String) : Option Json := parseFull s

/-! ### The checksummed map (kv.Map, modelled from the spec)

The external kv collaborator keeps an ordered string-to-JSON map with an
additive 128-bit checksum.  The model represents the map as an association
list (the key/value mapping; iteration order is not used by any claim) and
the checksum as a Nat reduced modulo 2 ^ 128. -/

/-- The key/value content of a checksummed map. -/
def KVMap : Type := List (String × Json)

instance : DecidableEq KVMap := inferInstanceAs (DecidableEq (List (String × Json)))

/-- The empty map. -/
def kvEmpty : KVMap := []

/-- Look a key up. -/
def kvGet : KVMap → String → Option Json
  | [], _ => none
  | (k1, v1) :: t, k => if k1 = k then some v1 else kvGet t k

/-- Key membership. -/
def kvHas (m : KVMap) (k : String) : Bool := (kvGet m k).isSome

/-- Set a key (the editor Set operation): replace in place or append. -/
def kvSet (k : String) (v : Json) : KVMap → KVMap
  | [] => [(k, v)]
  | (k1, v1) :: t => if k1 = k then (k, v) :: t else (k1, v1) :: kvSet k v t

/-- Remove a key (the editor Remove operation). -/
def kvRemove (k : String) : KVMap → KVMap
  | [] => []
  | (k1, v1) :: t => if k1 = k then kvRemove k t else (k1, v1) :: kvRemove k t

/-- Modelled from the spec: one step of the entry hash H(k ∥ canonical-json
v), a concrete rolling hash reduced modulo 2 ^ 128. -/
def hashStep (acc : Nat) (c : Char) : Nat := (acc * 31 + c.toNat) % (2 ^ 128)

/-- Hash of one map entry. -/
def entryHash (k : String) (v : Json) : Nat :=
  (k.toList ++ serJ v).foldl hashStep 7

/-- Modelled from the spec: the additive map checksum — the sum of the entry
hashes modulo 2 ^ 128 (design document section 4.1). -/
def cksum (m : KVMap) : Nat :=
  (m.foldl (fun a e => a + entryHash e.1 e.2) 0) % (2 ^ 128)

/-- Lowercase hex digit for a value below 16. -/
def hexDigCh (n : Nat) : Char :=
  if n < 10 then Char.ofNat (48 + n) else Char.ofNat (87 + n)

/-- Fixed-width big-endian hex digits of a number. -/
def hexChars : Nat → Nat → List Char
  | 0, _ => []
  | w + 1, n => hexChars w (n / 16) ++ [hexDigCh (n % 16)]

/-- The 32-character hex string of a 128-bit checksum. -/
def toHexCk (n : Nat) : String := String.mk (hexChars 32 n)

/-- The checksum of a map as the hex string stored in commits. -/
def checksumStr (m : KVMap) : String := toHexCk (cksum m)

/-- Numeric value of one hex digit character. -/
def hexValCh (c : Char) : Option Nat :=
  if 48 ≤ c.toNat ∧ c.toNat ≤ 57 then some (c.toNat - 48)
  else if 97 ≤ c.toNat ∧ c.toNat ≤ 102 then some (c.toNat - 87)
  else none

/-- Modelled from the spec: kv.ChecksumFromString — parse a 32-character hex
checksum string, failing on malformed input. -/
def checksumFromString (s : String) : Option Nat :=
  if s.length = 32 then
    s.toList.foldl
      (fun acc c =>
        match acc, hexValCh c with
        | some a, some d => some (a * 16 + d)
        | _, _ => none)
      (some 0)
  else none

/-! ### The commit model (commit.go, modelled from the spec)

commit.go is not part of the sources at hand; the structure below follows
design document section 3.  Content addressing makes the commit graph
acyclic, so a commit holds its parents as subterms and reference equality is
structural equality. -/

/-- Modelled from the spec: a commit — Genesis, Tx or Reorder (design
document section 3).  Each commit carries its map and that map's checksum
string; Tx has one parent (its basis), Reorder has two (new basis and the
original subject). -/
inductive Commit where
  | genesis (serverStateID : String) (data : KVMap) (checksum : String)
      (lastMutationID : Nat)
  | tx (basis : Commit) (date : Nat) (name : String) (args : List Json)
      (data : KVMap) (checksum : String)
  | reorder (basis : Commit) (date : Nat) (subject : Commit) (data : KVMap)
      (checksum : String)
deriving DecidableEq

/-- The map a commit refers to (Commit.Data). -/
def dataOf : Commit → KVMap
  | .genesis _ d _ _ => d
  | .tx _ _ _ _ d _ => d
  | .reorder _ _ _ d _ => d

/-- The basis of a commit (Commit.Basis): first parent; a Genesis has none,
which the Go code reports as an error. -/
def basisOf : Commit → Option Commit
  | .genesis _ _ _ _ => none
  | .tx b _ _ _ _ _ => some b
  | .reorder b _ _ _ _ => some b

/-- The parent list of a commit. -/
def parentsOf : Commit → List Commit
  | .genesis _ _ _ _ => []
  | .tx b _ _ _ _ _ => [b]
  | .reorder b _ s _ _ => [b, s]

/-- Commit.InitalCommit: walk Reorder subjects down to the original Tx (or
Genesis) commit. -/
def initialCommit : Commit → Commit
  | .reorder _ _ s _ _ => initialCommit s
  | .genesis sid d ck l => .genesis sid d ck l
  | .tx b d n a dat ck => .tx b d n a dat ck

/-- Tx metadata of a commit; a non-Tx commit yields the Go zero values. -/
def txMetaOf : Commit → String × List Json
  | .tx _ _ n a _ _ => (n, a)
  | _ => ("", [])

/-- makeGenesis (commit.go, modelled from the spec). -/
def makeGenesis (serverStateID : String) (data : KVMap) (checksum : String)
    (lastMutationID : Nat) : Commit :=
  .genesis serverStateID data checksum lastMutationID

/-- makeTx (commit.go, modelled from the spec). -/
def makeTx (basis : Commit) (date : Nat) (function : String)
    (args : List Json) (newData : KVMap) (newDataChecksum : String) : Commit :=
  .tx basis date function args newData newDataChecksum

/-- makeReorder (commit.go, modelled from the spec). -/
def makeReorder (basis : Commit) (date : Nat) (subject : Commit)
    (newData : KVMap) (newDataChecksum : String) : Commit :=
  .reorder basis date subject newData newDataChecksum

/-- Structural size of a commit, used to separate a commit from its own
basis. -/
def commitSz : Commit → Nat
  | .genesis _ _ _ _ => 1
  | .tx b _ _ _ _ _ => commitSz b + 1
  | .reorder b _ s _ _ => commitSz b + commitSz s + 1

/-! ### The database (db.go) -/

/-- The mutable database state: the local head commit and the remote dataset
pointer (none when the remote dataset has no head yet). -/
structure DBState where
  head : Commit
  remoteHead : Option Commit
deriving DecidableEq

/-- Error outcomes of the db layer; d.Panic is modelled as the distinguished
panicNonInternal / badArgs outcomes. -/
inductive RErr where
  | panicNonInternal
  | badArgs
  | malformedJSON
  | genesisNoBasis
  | noCommonAncestor
deriving DecidableEq

/-- execImpl (db.go): run one transaction body against a basis commit,
returning (newData, newDataChecksum, output, isWrite).  Only the internal
dot-prefixed transactions are implemented; a name without the "." marker
panics NON-INTERNAL TRANSACTIONS DISABLED FOR NOW, and an unknown dot name
falls through the switch as a read-only no-op. -/
def execImpl (basisCommit : Commit) (function : String) (args : List Json) :
    Except RErr (KVMap × String × Option Json × Bool) :=
  if strStarts "." function then
    if function = ".putValue" then
      match args with
      | .str k :: v :: _ =>
          let newMap := kvSet k v (dataOf basisCommit)
          .ok (newMap, checksumStr newMap, none, true)
      | _ => .error .badArgs
    else if function = ".delValue" then
      match args with
      | .str k :: _ =>
          let m := dataOf basisCommit
          let wasThere := kvHas m k
          let newMap := kvRemove k m
          .ok (newMap, checksumStr newMap, some (.bool wasThere), true)
      | _ => .error .badArgs
    else
      .ok (dataOf basisCommit, "", none, false)
  else .error .panicNonInternal

/-- execInternal (db.go): run execImpl against the current head; read-only
transactions produce no commit, writes produce a Tx commit that becomes the
new head by fast-forward. -/
def execInternal (st : DBState) (date : Nat) (function : String)
    (args : List Json) : Except RErr (Option Json × DBState) :=
  match execImpl st.head function args with
  | .error e => .error e
  | .ok (newData, newDataChecksum, output, isWrite) =>
      if isWrite then
        let commit := makeTx st.head date function args newData newDataChecksum
        .ok (output, { st with head := commit })
      else .ok (output, st)

/-- DB.Put (db.go): canonicalize the raw JSON, decode it, and apply the
internal .putValue transaction. -/
def Put (st : DBState) (date : Nat) (path : String) (rawJSON : String) :
    Except RErr DBState :=
  match canonicalize rawJSON with
  | none => .error .malformedJSON
  | some canonicalJSON =>
      match fromJSON canonicalJSON with
      | none => .error .malformedJSON
      | some value =>
          match execInternal st date ".putValue" [.str path, value] with
          | .error e => .error e
          | .ok (_, st1) => .ok st1

/-- DB.Get (db.go): read a key from the head map and re-render it to JSON
bytes; a missing key yields nothing. -/
def Get (st : DBState) (id : String) : Option String :=
  (kvGet (dataOf st.head) id).map toJSONStr

/-- DB.Has (db.go). -/
def Has (st : DBState) (id : String) : Bool := kvHas (dataOf st.head) id

/-- DB.Del (db.go): apply the internal .delValue transaction; the output is
coerced to Bool the way the Go code asserts types.Bool. -/
def Del (st : DBState) (date : Nat) (path : String) :
    Except RErr (Bool × DBState) :=
  match execInternal st date ".delValue" [.str path] with
  | .error e => .error e
  | .ok (some (.bool b), st1) => .ok (b, st1)
  | .ok (_, _) => .error .badArgs

/-! ### The pull client (request_sync.go) -/

/-- One JSON-Patch operation of the pull protocol. -/
structure PatchOp where
  op : String
  path : String
  value : Option Json
deriving DecidableEq

/-- The decoded body of a pull response. -/
structure PullResponse where
  stateID : String
  patch : List PatchOp
  checksum : String
deriving DecidableEq

/-- An HTTP response as the pull client sees it: the numeric status code, the
reason phrase (Go keeps both in resp.Status), the raw body, and the outcome
of the external JSON decoder on that body (none when the body is not a valid
pull response). -/
structure HTTPResp where
  status : Nat
  reason : String
  bodyRaw : String
  decoded : Option PullResponse

/-- The Go resp.Status line, such as 403 Forbidden. -/
def statusText (r : HTTPResp) : String := toString r.status ++ " " ++ r.reason

/-- Error outcomes of RequestSync; authErr is the PullAuthError wrapper the
dispatcher recognizes. -/
inductive SyncErr where
  | authErr (msg : String)
  | httpErr (msg : String)
  | invalidResponse (msg : String)
  | patchErr (msg : String)
  | badChecksumStr (msg : String)
  | checksumMismatch (msg : String)
deriving DecidableEq

/-- The message carried by a sync error. -/
def syncErrMsg : SyncErr → String
  | .authErr m => m
  | .httpErr m => m
  | .invalidResponse m => m
  | .patchErr m => m
  | .badChecksumStr m => m
  | .checksumMismatch m => m

/-- findGenesis (request_sync.go): walk the head back through first parents
to its nearest Genesis.  In the model every parent chain ends in a Genesis,
so the walk is total. -/
def findGenesis : Commit → Commit
  | .genesis sid d ck l => .genesis sid d ck l
  | .tx b _ _ _ _ _ => findGenesis b
  | .reorder b _ _ _ _ => findGenesis b

/-- Modelled from the spec: apply the user-path operations of a patch, one by
one (kv.ApplyPatch lives in the external diff-server collaborator; design
document sections 4.5 and 6).  Only op add and op remove under a /u/ path are
supported. -/
def applyOps : KVMap → List PatchOp → Except String KVMap
  | m, [] => .ok m
  | m, op :: rest =>
      if strStarts "/u/" op.path then
        let k := strDrop op.path 3
        if op.op = "add" then
          match op.value with
          | some v => applyOps (kvSet k v m) rest
          | none => .error ("missing value for add at " ++ op.path)
        else if op.op = "remove" then applyOps (kvRemove k m) rest
        else .error ("Unsupported JSON Patch operation: " ++ op.op)
      else .error ("Unsupported JSON Patch operation: " ++ op.op ++
        " with path: " ++ op.path)

/-- Modelled from the spec: kv.ApplyPatch — a leading clear-all op (remove of
path /) restarts from the empty map, everything else is applied to the base
map. -/
def applyPatch (base : KVMap) (ops : List PatchOp) : Except String KVMap :=
  match ops with
  | op :: rest =>
      if op.op = "remove" ∧ op.path = "/" then applyOps kvEmpty rest
      else applyOps base (op :: rest)
  | [] => applyOps base []

/-- RequestSync (request_sync.go): find the head genesis, check the HTTP
status (403 becomes the PullAuthError wrapper), decode, patch the genesis
map, verify the response checksum, and only then install a fresh genesis as
the local head (SetHead plus init).  The remote dataset is never touched. -/
def RequestSync (st : DBState) (resp : HTTPResp) : Except SyncErr DBState :=
  let genesis := findGenesis st.head
  if resp.status ≠ 200 then
    let msg := statusText resp ++ ": " ++ resp.bodyRaw
    if resp.status = 403 then .error (.authErr msg) else .error (.httpErr msg)
  else
    match resp.decoded with
    | none => .error (.invalidResponse "Response is not valid JSON")
    | some respBody =>
        match applyPatch (dataOf genesis) respBody.patch with
        | .error e => .error (.patchErr ("couldnt apply patch: " ++ e))
        | .ok patchedMap =>
            match checksumFromString respBody.checksum with
            | none =>
                .error (.badChecksumStr ("response checksum malformed: " ++
                  respBody.checksum))
            | some expectedChecksum =>
                if cksum patchedMap ≠ expectedChecksum then
                  .error (.checksumMismatch ("Checksum mismatch! Expected " ++
                    toHexCk expectedChecksum ++ ", got " ++
                    toHexCk (cksum patchedMap)))
                else
                  let newHead := makeGenesis respBody.stateID patchedMap
                    (toHexCk (cksum patchedMap)) 0
                  .ok { st with head := newHead }

/-- The state transition RequestSync performs on the database: on any error
the Go code returns before SetHead, so the state is left as it was. -/
def requestSyncStep (st : DBState) (resp : HTTPResp) :
    DBState × Except SyncErr Unit :=
  match RequestSync st resp with
  | .ok st1 => (st1, .ok ())
  | .error e => (st, .error e)

/-- The body of the requestSync RPC response (api package): a root hash on
success, or the structured badAuth error. -/
structure SyncResponseW where
  root : Option Commit
  badAuth : Option String
deriving DecidableEq

/-- dispatchRequestSync (api package): forward to RequestSync; an auth error
becomes a successful response carrying the badAuth message, any other error
fails the dispatch with its message. -/
def dispatchRequestSync (st : DBState) (resp : HTTPResp) :
    Except String (SyncResponseW × DBState) :=
  match RequestSync st resp with
  | .error (.authErr m) => .ok ({ root := none, badAuth := some m }, st)
  | .error e => .error (syncErrMsg e)
  | .ok st1 => .ok ({ root := some st1.head, badAuth := none }, st1)

/-! ### The rebase engine (rebase.go) -/

/-- All commits reachable from a commit through parents, the commit itself
included. -/
def ancestorsOf : Commit → List Commit
  | .genesis sid d ck l => [.genesis sid d ck l]
  | .tx b d n a dat ck => .tx b d n a dat ck :: ancestorsOf b
  | .reorder b d s dat ck =>
      .reorder b d s dat ck :: (ancestorsOf b ++ ancestorsOf s)

/-- commonAncestor (rebase.go): the wrapped noms FindCommonAncestor is
modelled from the spec as a search for any commit reachable from both sides;
it fails exactly when the two histories share no commit. -/
def commonAncestor (r1 r2 : Commit) : Option Commit :=
  (ancestorsOf r1).find? (fun c => (ancestorsOf r2).contains c)

/-- The recursive body of rebase (rebase.go) once the forkpoint is known: at
the forkpoint return onto; otherwise rebase the basis, fast-forward when the
basis did not move, and otherwise replay the initial transaction against the
new basis and wrap the result in a Reorder commit. -/
def rebaseFrom (onto : Commit) (date : Nat) : Commit → Commit →
    Except RErr Commit
  | c, forkPoint =>
      if c = forkPoint then .ok onto
      else
        match c with
        | .genesis _ _ _ _ => .error .genesisNoBasis
        | .tx b d n a dat ck =>
            match rebaseFrom onto date b forkPoint with
            | .error e => .error e
            | .ok newBasis =>
                if newBasis = b then .ok (.tx b d n a dat ck)
                else
                  match execImpl newBasis n a with
                  | .error e => .error e
                  | .ok (newData, newDataChecksum, _, _) =>
                      .ok (makeReorder newBasis date (.tx b d n a dat ck)
                        newData newDataChecksum)
        | .reorder b d s dat ck =>
            match rebaseFrom onto date b forkPoint with
            | .error e => .error e
            | .ok newBasis =>
                if newBasis = b then .ok (.reorder b d s dat ck)
                else
                  let target := initialCommit (.reorder b d s dat ck)
                  match execImpl newBasis (txMetaOf target).1
                    (txMetaOf target).2 with
                  | .error e => .error e
                  | .ok (newData, newDataChecksum, _, _) =>
                      .ok (makeReorder newBasis date (.reorder b d s dat ck)
                        newData newDataChecksum)

/-- rebase (rebase.go): a zero forkPoint (modelled as none) is first resolved
to the common ancestor of onto and commit; no common ancestor is a fatal
error. -/
def rebase (onto : Commit) (date : Nat) (commit : Commit)
    (forkPoint : Option Commit) : Except RErr Commit :=
  match forkPoint with
  | none =>
      match commonAncestor onto commit with
      | none => .error .noCommonAncestor
      | some f => rebaseFrom onto date commit f
  | some f => rebaseFrom onto date commit f

/-! ### Concrete states used to evaluate the theorems -/

/-- The genesis commit of a fresh database (empty map, empty server state
id). -/
def g0 : Commit := makeGenesis "" kvEmpty (checksumStr kvEmpty) 0

/-- A fresh database. -/
def db0 : DBState := { head := g0, remoteHead := none }

/-- A database whose head map binds foo to the string bar. -/
def dbFoo : DBState :=
  { head := Commit.genesis "" [("foo", Json.str "bar")]
      (checksumStr [("foo", Json.str "bar")]) 0,
    remoteHead := none }

/-- A genesis commit that was pulled from server state s1. -/
def gS : Commit := makeGenesis "s1" kvEmpty (toHexCk 0) 0

/-- A pending local Tx commit on top of gS. -/
def pendingTx : Commit := makeTx gS 0 ".delValue" [Json.str "x"] kvEmpty (toHexCk 0)

/-- A database with one pending local Tx commit and the remote dataset at
gS. -/
def stPend : DBState := { head := pendingTx, remoteHead := some gS }

/-- A successful pull response body: new state id s2, empty patch, matching
checksum. -/
def prOk : PullResponse := { stateID := "s2", patch := [], checksum := toHexCk 0 }

/-- A 200 pull response carrying prOk. -/
def respOk : HTTPResp :=
  { status := 200, reason := "OK", bodyRaw := "", decoded := some prOk }

/-- A decoded pull response whose checksum does not match the patched map. -/
def prBadCk : PullResponse :=
  { stateID := "s2", patch := [], checksum := "aaaaaaaaaaaaaaaaaaaaaaaaaaaaaaaa" }

/-- A 200 pull response carrying prBadCk. -/
def respBadCk : HTTPResp :=
  { status := 200, reason := "OK", bodyRaw := "", decoded := some prBadCk }

/-- A 403 pull response. -/
def resp403 : HTTPResp :=
  { status := 403, reason := "Forbidden", bodyRaw := "Bad auth token",
    decoded := none }

/-- A 400 pull response. -/
def resp400 : HTTPResp :=
  { status := 400, reason := "Bad Request",
    bodyRaw := "You have made an invalid request", decoded := none }

/-- Two genesis commits with different server state ids, sharing no
ancestor. -/
def gA : Commit := makeGenesis "a" kvEmpty (toHexCk 0) 0

/-- Second unrelated genesis. -/
def gB : Commit := makeGenesis "b" kvEmpty (toHexCk 0) 0

/-- A Tx commit over gA, for exercising the rebase terminating cases. -/
def tA : Commit :=
  makeTx gA 0 ".putValue" [Json.str "foo", Json.str "a"]
    [("foo", Json.str "a")] (checksumStr [("foo", Json.str "a")])

/-! ### Helper lemmas -/

theorem kvGet_set (m : KVMap) (k : String) (v : Json) :
    kvGet (kvSet k v m) k = some v := by
  induction m with
  | nil => simp [kvSet, kvGet]
  | cons e t ih =>
      obtain ⟨k1, v1⟩ := e
      by_cases h : k1 = k
      · subst h; simp [kvSet, kvGet]
      · simp [kvSet, kvGet, h, ih]

theorem kvGet_remove (m : KVMap) (k : String) :
    kvGet (kvRemove k m) k = none := by
  induction m with
  | nil => simp [kvRemove, kvGet]
  | cons e t ih =>
      obtain ⟨k1, v1⟩ := e
      by_cases h : k1 = k
      · simp [kvRemove, h, ih]
      · simp [kvRemove, kvGet, h, ih]

theorem kvHas_remove (m : KVMap) (k : String) :
    kvHas (kvRemove k m) k = false := by
  simp [kvHas, kvGet_remove]

theorem kvRemove_absent (m : KVMap) (k : String) (h : kvHas m k = false) :
    kvRemove k m = m := by
  induction m with
  | nil => simp [kvRemove]
  | cons e t ih =>
      obtain ⟨k1, v1⟩ := e
      by_cases hk : k1 = k
      · simp [kvHas, kvGet, hk] at h
      · simp [kvHas, kvGet, hk] at h
        rw [kvRemove, if_neg hk, ih (by simp [kvHas, h])]

theorem tx_ne_basis (b : Commit) (d : Nat) (n : String) (a : List Json)
    (dat : KVMap) (ck : String) : Commit.tx b d n a dat ck ≠ b := by
  intro h
  have hsz := congrArg commitSz h
  simp [commitSz] at hsz

theorem starts_dot_put : strStarts "." ".putValue" = true := by decide

theorem starts_dot_del : strStarts "." ".delValue" = true := by decide

theorem del_ne_put : (".delValue" : String) ≠ ".putValue" := by decide

/-! ### Round-trip of the canonical JSON codec

The lemmas below establish that rendering any JSON value and parsing it back
recovers the value, so every rendered value is a fixed point of
canonicalization — the hypothesis of the round-trip claim C7 holds for the
whole grammar of the model. -/

theorem strmk_toList (s : String) : String.mk s.toList = s := by
  cases s
  rfl

theorem strmk_data (s : String) : String.mk s.data = s := by
  cases s
  rfl

theorem digitCh_toNat (k : Nat) (h : k < 10) :
    (Char.ofNat (48 + k)).toNat = 48 + k := by
  interval_cases k <;> decide

theorem digitCh_isDigit (k : Nat) (h : k < 10) :
    isDigitCh (Char.ofNat (48 + k)) = true := by
  interval_cases k <;> decide

theorem digit_ne_delims (c : Char) (h : isDigitCh c = true) :
    c ≠ '-' ∧ c ≠ '"' ∧ c ≠ '[' ∧ c ≠ '\x7b' ∧ c ≠ ']' ∧ c ≠ '\x7d' := by
  refine ⟨?_, ?_, ?_, ?_, ?_, ?_⟩ <;> (rintro rfl; revert h; decide)

theorem natCharsAux_fuel : ∀ f1 f2 n, n < f1 → n < f2 →
    natCharsAux f1 n = natCharsAux f2 n := by
  intro f1
  induction f1 with
  | zero => intro f2 n h1 _; omega
  | succ f ih =>
      intro f2 n h1 h2
      cases f2 with
      | zero => omega
      | succ g =>
          simp only [natCharsAux]
          by_cases hn : n < 10
          · simp [hn]
          · have hd : n / 10 < n := Nat.div_lt_self (by omega) (by omega)
            rw [if_neg hn, if_neg hn, ih g (n / 10) (by omega) (by omega)]

theorem natChars_eq (n : Nat) : natChars n =
    if n < 10 then [Char.ofNat (48 + n)]
    else natChars (n / 10) ++ [Char.ofNat (48 + n % 10)] := by
  show natCharsAux (n + 1) n = _
  simp only [natCharsAux]
  by_cases hn : n < 10
  · simp [hn]
  · have hd : n / 10 < n := Nat.div_lt_self (by omega) (by omega)
    rw [if_neg hn, if_neg hn,
      natCharsAux_fuel n (n / 10 + 1) (n / 10) (by omega) (by omega)]
    rfl

theorem natChars_digits (n : Nat) :
    ∀ c ∈ natChars n, isDigitCh c = true := by
  induction n using Nat.strong_induction_on with
  | _ n ih =>
      rw [natChars_eq]
      by_cases hn : n < 10
      · intro c hc
        rw [if_pos hn, List.mem_singleton] at hc
        subst hc
        exact digitCh_isDigit n hn
      · intro c hc
        rw [if_neg hn, List.mem_append] at hc
        rcases hc with h | h
        · exact ih (n / 10) (Nat.div_lt_self (by omega) (by omega)) c h
        · rw [List.mem_singleton] at h
          subst h
          exact digitCh_isDigit (n % 10) (Nat.mod_lt _ (by omega))

theorem natChars_cons (n : Nat) :
    ∃ c t, natChars n = c :: t ∧ isDigitCh c = true := by
  cases hh : natChars n with
  | nil =>
      exfalso
      rw [natChars_eq] at hh
      by_cases hn : n < 10 <;> simp [hn] at hh
  | cons c t =>
      exact ⟨c, t, rfl, natChars_digits n c (hh ▸ List.mem_cons_self c t)⟩

theorem digitsVal_natChars (n : Nat) : digitsVal (natChars n) = n := by
  induction n using Nat.strong_induction_on with
  | _ n ih =>
      rw [natChars_eq]
      by_cases hn : n < 10
      · rw [if_pos hn]
        simp [digitsVal, digitCh_toNat n hn]
      · rw [if_neg hn]
        have hd : n / 10 < n := Nat.div_lt_self (by omega) (by omega)
        simp only [digitsVal, List.foldl_append, List.foldl_cons,
          List.foldl_nil]
        rw [show (natChars (n / 10)).foldl
            (fun a c => a * 10 + (c.toNat - 48)) 0 = n / 10 from ih _ hd]
        rw [digitCh_toNat (n % 10) (Nat.mod_lt _ (by omega))]
        omega

theorem takeDigitsL_stop (cs : List Char) (h : noDigitHead cs = true) :
    takeDigitsL cs = ([], cs) := by
  cases cs with
  | nil => rfl
  | cons c t =>
      simp only [noDigitHead, Bool.not_eq_true'] at h
      simp [takeDigitsL, h]

theorem takeDigitsL_run (ds : List Char) (rest : List Char)
    (hds : ∀ c ∈ ds, isDigitCh c = true) (hr : noDigitHead rest = true) :
    takeDigitsL (ds ++ rest) = (ds, rest) := by
  induction ds with
  | nil => simpa using takeDigitsL_stop rest hr
  | cons c t ih =>
      have hc : isDigitCh c = true := hds c (List.mem_cons_self c t)
      have ht := ih (fun x hx => hds x (List.mem_cons_of_mem c hx))
      simp [takeDigitsL, hc, ht]

theorem parseStrBody_ser (l : List Char) (rest : List Char) :
    parseStrBody (serStrBody l ++ '"' :: rest) = some (l, rest) := by
  induction l with
  | nil =>
      have h0 : serStrBody [] = [] := by simp [serStrBody]
      rw [h0, List.nil_append, parseStrBody.eq_def]
      simp
  | cons c t ih =>
      by_cases h : c = '"' ∨ c = '\\'
      · have he : serStrBody (c :: t) = '\\' :: c :: serStrBody t := by
          simp [serStrBody, escChar, h]
        rw [he, List.cons_append, List.cons_append, parseStrBody.eq_def]
        simp [h, ih]
      · push_neg at h
        have he : serStrBody (c :: t) = c :: serStrBody t := by
          simp [serStrBody, escChar, h.1, h.2]
        rw [he, List.cons_append, parseStrBody.eq_def]
        simp [h.1, h.2, ih]

theorem serJ_head (v : Json) :
    ∃ c t, serJ v = c :: t ∧ c ≠ ']' ∧ c ≠ '\x7d' := by
  cases v with
  | null => exact ⟨'n', "ull".toList, by decide, by decide, by decide⟩
  | bool b =>
      cases b with
      | false => exact ⟨'f', "alse".toList, by decide, by decide, by decide⟩
      | true => exact ⟨'t', "rue".toList, by decide, by decide, by decide⟩
  | num i =>
      by_cases hneg : i < 0
      · refine ⟨'-', natChars i.natAbs, ?_, by decide, by decide⟩
        simp [serJ, intChars, hneg]
      · obtain ⟨c, t, hct, hd⟩ := natChars_cons i.natAbs
        obtain ⟨_, _, _, _, hbr, hbc⟩ := digit_ne_delims c hd
        refine ⟨c, t, ?_, hbr, hbc⟩
        simp [serJ, intChars, hneg, hct]
  | str s =>
      exact ⟨'"', serStrBody s.toList ++ ['"'], by simp [serJ, serQuoted],
        by decide, by decide⟩
  | arr xs => exact ⟨'[', serItems xs ++ [']'], by simp [serJ], by decide,
      by decide⟩
  | obj fs => exact ⟨'\x7b', serFields fs ++ ['\x7d'], by simp [serJ],
      by decide, by decide⟩

theorem serJ_len_pos (v : Json) : 1 ≤ (serJ v).length := by
  obtain ⟨c, t, hct, _, _⟩ := serJ_head v
  simp [hct]

theorem serItems_head (x : Json) (tl : JList) :
    ∃ c t, serItems (.cons x tl) = c :: t ∧ c ≠ ']' := by
  obtain ⟨c, t, hct, h1, _⟩ := serJ_head x
  cases tl with
  | nil => exact ⟨c, t, by simp [serItems, hct], h1⟩
  | cons y tl2 =>
      exact ⟨c, t ++ ',' :: serItems (.cons y tl2), by simp [serItems, hct],
        h1⟩

theorem serFields_head (k : String) (v : Json) (tl : JFields) :
    ∃ t, serFields (.fcons k v tl) = '"' :: t := by
  cases tl with
  | fnil =>
      exact ⟨serStrBody k.toList ++ '"' :: ':' :: serJ v,
        by simp [serFields, serQuoted]⟩
  | fcons k2 v2 tl2 =>
      exact ⟨serStrBody k.toList ++ '"' :: ':' ::
          (serJ v ++ ',' :: serFields (.fcons k2 v2 tl2)),
        by simp [serFields, serQuoted]⟩

theorem parseVal_int (fuel : Nat) (i : Int) (rest : List Char)
    (hr : noDigitHead rest = true) :
    parseVal (fuel + 1) (intChars i ++ rest) = some (.num i, rest) := by
  obtain ⟨c, t, hct, hd⟩ := natChars_cons i.natAbs
  have hval : digitsVal (c :: t) = i.natAbs := by
    rw [← hct, digitsVal_natChars]
  by_cases hneg : i < 0
  · have hi : intChars i = '-' :: natChars i.natAbs := by
      simp [intChars, hneg]
    have htake : takeDigitsL (natChars i.natAbs ++ rest) =
        (c :: t, rest) := by
      rw [takeDigitsL_run _ _ (natChars_digits _) hr, hct]
    rw [hi, List.cons_append, parseVal.eq_def]
    simp only [show isDigitCh '-' = false from by decide, Bool.false_eq_true,
      if_false, if_pos rfl, parseNeg, htake]
    simp [hval]
    rw [abs_of_nonpos (le_of_lt hneg), neg_neg]
  · have hi : intChars i ++ rest = c :: (t ++ rest) := by
      simp [intChars, hneg, hct]
    have htake : takeDigitsL (c :: (t ++ rest)) = (c :: t, rest) := by
      rw [show c :: (t ++ rest) = (c :: t) ++ rest from rfl, ← hct,
        takeDigitsL_run _ _ (natChars_digits _) hr]
    rw [hi, parseVal.eq_def]
    simp only [hd, if_pos rfl, htake]
    simp [hval]
    omega

theorem parseVal_str (fuel : Nat) (s : String) (rest : List Char) :
    parseVal (fuel + 1) (serQuoted s ++ rest) = some (.str s, rest) := by
  have hq : serQuoted s ++ rest =
      '"' :: (serStrBody s.toList ++ '"' :: rest) := by
    simp [serQuoted]
  rw [hq, parseVal.eq_def]
  simp [show isDigitCh '"' = false from by decide,
    show ('"' : Char) ≠ '-' from by decide, parseStrBody_ser, strmk_toList]

theorem parseVal_arr_go (fuel : Nat) (x : Json) (tl : JList)
    (rest : List Char) :
    parseVal (fuel + 1) ('[' :: (serItems (.cons x tl) ++ ']' :: rest)) =
      (parseItems fuel (serItems (.cons x tl) ++ ']' :: rest)).map
        (fun p => (Json.arr p.1, p.2)) := by
  obtain ⟨c, t, hct, hbr⟩ := serItems_head x tl
  rw [parseVal.eq_def, hct, List.cons_append]
  simp [show isDigitCh '[' = false from by decide,
    show ('[' : Char) ≠ '-' from by decide,
    show ('[' : Char) ≠ '"' from by decide, hbr]

theorem parseVal_obj_go (fuel : Nat) (k : String) (v : Json) (tl : JFields)
    (rest : List Char) :
    parseVal (fuel + 1) ('\x7b' :: (serFields (.fcons k v tl) ++ '\x7d' :: rest)) =
      (parseFields fuel (serFields (.fcons k v tl) ++ '\x7d' :: rest)).map
        (fun p => (Json.obj p.1, p.2)) := by
  obtain ⟨t, hct⟩ := serFields_head k v tl
  rw [parseVal.eq_def, hct, List.cons_append]
  simp [show isDigitCh '\x7b' = false from by decide,
    show ('\x7b' : Char) ≠ '-' from by decide,
    show ('\x7b' : Char) ≠ '"' from by decide,
    show ('\x7b' : Char) ≠ '[' from by decide,
    show ('"' : Char) ≠ '\x7d' from by decide]

theorem parseItems_step (f : Nat) (cs : List Char) :
    parseItems (f + 1) cs =
      match parseVal f cs with
      | none => none
      | some (v, r) =>
          match r with
          | ',' :: r1 => (parseItems f r1).map (fun p => (.cons v p.1, p.2))
          | ']' :: r1 => some (.cons v .nil, r1)
          | _ => none := rfl

theorem parseFields_step (f : Nat) (cs : List Char) :
    parseFields (f + 1) cs =
      match cs with
      | '"' :: r =>
          match parseStrBody r with
          | none => none
          | some (kcs, r1) =>
              match r1 with
              | ':' :: r2 =>
                  match parseVal f r2 with
                  | none => none
                  | some (v, r3) =>
                      match r3 with
                      | ',' :: r4 =>
                          (parseFields f r4).map
                            (fun p => (.fcons (String.mk kcs) v p.1, p.2))
                      | '\x7d' :: r4 =>
                          some (.fcons (String.mk kcs) v .fnil, r4)
                      | _ => none
              | _ => none
      | _ => none := rfl

mutual

theorem rtV : ∀ (v : Json) (fuel : Nat) (rest : List Char),
    (serJ v).length < fuel → noDigitHead rest = true →
    parseVal fuel (serJ v ++ rest) = some (v, rest)
  | .null, fuel, rest, hf, _ => by
      cases fuel with
      | zero => exact absurd hf (Nat.not_lt_zero _)
      | succ f => rfl
  | .bool b, fuel, rest, hf, _ => by
      cases fuel with
      | zero => exact absurd hf (Nat.not_lt_zero _)
      | succ f => cases b with
        | false => rfl
        | true => rfl
  | .num i, fuel, rest, hf, hr => by
      cases fuel with
      | zero => exact absurd hf (Nat.not_lt_zero _)
      | succ f => exact parseVal_int f i rest hr
  | .str s, fuel, rest, hf, _ => by
      cases fuel with
      | zero => exact absurd hf (Nat.not_lt_zero _)
      | succ f => exact parseVal_str f s rest
  | .arr .nil, fuel, rest, hf, _ => by
      cases fuel with
      | zero => exact absurd hf (Nat.not_lt_zero _)
      | succ f => rfl
  | .arr (.cons x tl), fuel, rest, hf, _ => by
      cases fuel with
      | zero => exact absurd hf (Nat.not_lt_zero _)
      | succ f =>
          have hsh : serJ (Json.arr (JList.cons x tl)) ++ rest =
              '[' :: (serItems (.cons x tl) ++ ']' :: rest) := by
            simp [serJ]
          have h2 : (serJ (Json.arr (JList.cons x tl))).length =
              (serItems (JList.cons x tl)).length + 2 := by
            simp [serJ]
          have hlen : (serItems (JList.cons x tl)).length + 1 < f := by
            omega
          rw [hsh, parseVal_arr_go f x tl rest, rtL x tl f rest hlen]
          rfl
  | .obj .fnil, fuel, rest, hf, _ => by
      cases fuel with
      | zero => exact absurd hf (Nat.not_lt_zero _)
      | succ f => rfl
  | .obj (.fcons k v tl), fuel, rest, hf, _ => by
      cases fuel with
      | zero => exact absurd hf (Nat.not_lt_zero _)
      | succ f =>
          have hsh : serJ (Json.obj (JFields.fcons k v tl)) ++ rest =
              '\x7b' :: (serFields (.fcons k v tl) ++ '\x7d' :: rest) := by
            simp [serJ]
          have h2 : (serJ (Json.obj (JFields.fcons k v tl))).length =
              (serFields (JFields.fcons k v tl)).length + 2 := by
            simp [serJ]
          have hlen : (serFields (JFields.fcons k v tl)).length + 1 < f := by
            omega
          rw [hsh, parseVal_obj_go f k v tl rest, rtF k v tl f rest hlen]
          rfl
termination_by v _ _ _ _ => sizeOf v
decreasing_by all_goals (simp_wf; try omega)

theorem rtL : ∀ (x : Json) (tl : JList) (fuel : Nat) (rest : List Char),
    (serItems (.cons x tl)).length + 1 < fuel →
    parseItems fuel (serItems (.cons x tl) ++ ']' :: rest) =
      some (.cons x tl, rest)
  | x, .nil, fuel, rest, hf => by
      cases fuel with
      | zero => exact absurd hf (Nat.not_lt_zero _)
      | succ f =>
          have hs : serItems (JList.cons x JList.nil) ++ ']' :: rest =
              serJ x ++ ']' :: rest := by simp [serItems]
          have h2 : (serItems (JList.cons x JList.nil)).length =
              (serJ x).length := by simp [serItems]
          have h1 : (serJ x).length < f := by omega
          have hv := rtV x f (']' :: rest) h1 rfl
          rw [hs, parseItems_step, hv]
          rfl
  | x, .cons y tl2, fuel, rest, hf => by
      cases fuel with
      | zero => exact absurd hf (Nat.not_lt_zero _)
      | succ f =>
          have hsI : serItems (JList.cons x (JList.cons y tl2)) =
              serJ x ++ ',' :: serItems (JList.cons y tl2) := by
            simp [serItems]
          have hs : serItems (JList.cons x (JList.cons y tl2)) ++ ']' :: rest =
              serJ x ++ ',' :: (serItems (JList.cons y tl2) ++ ']' :: rest) := by
            rw [hsI]
            simp
          rw [hsI] at hf
          simp only [List.length_append, List.length_cons] at hf
          have h1 : (serJ x).length < f := by omega
          have h2 : (serItems (JList.cons y tl2)).length + 1 < f := by omega
          have hv := rtV x f
            (',' :: (serItems (JList.cons y tl2) ++ ']' :: rest)) h1 rfl
          have hrec := rtL y tl2 f rest h2
          rw [hs, parseItems_step, hv]
          simp [hrec]
termination_by x tl _ _ _ => 1 + sizeOf x + sizeOf tl
decreasing_by all_goals (simp_wf; try omega)

theorem rtF : ∀ (k : String) (v : Json) (tl : JFields) (fuel : Nat)
    (rest : List Char),
    (serFields (.fcons k v tl)).length + 1 < fuel →
    parseFields fuel (serFields (.fcons k v tl) ++ '\x7d' :: rest) =
      some (.fcons k v tl, rest)
  | k, v, .fnil, fuel, rest, hf => by
      cases fuel with
      | zero => exact absurd hf (Nat.not_lt_zero _)
      | succ f =>
          have hs : serFields (JFields.fcons k v JFields.fnil) ++ '\x7d' :: rest =
              '"' :: (serStrBody k.data ++
                '"' :: ':' :: (serJ v ++ '\x7d' :: rest)) := by
            simp [serFields, serQuoted, String.toList]
          have h2 : (serFields (JFields.fcons k v JFields.fnil)).length =
              (serStrBody k.data).length + 3 + (serJ v).length := by
            simp [serFields, serQuoted, String.toList]
            omega
          have h1 : (serJ v).length < f := by omega
          have hv := rtV v f ('\x7d' :: rest) h1 rfl
          have hstr : parseStrBody (serStrBody k.data ++
              '"' :: ':' :: (serJ v ++ '\x7d' :: rest)) =
              some (k.data, ':' :: (serJ v ++ '\x7d' :: rest)) :=
            parseStrBody_ser k.data (':' :: (serJ v ++ '\x7d' :: rest))
          rw [hs, parseFields_step]
          simp [hstr, hv, strmk_data]
  | k, v, .fcons k2 v2 tl2, fuel, rest, hf => by
      cases fuel with
      | zero => exact absurd hf (Nat.not_lt_zero _)
      | succ f =>
          have hs : serFields (JFields.fcons k v (JFields.fcons k2 v2 tl2)) ++
              '\x7d' :: rest =
              '"' :: (serStrBody k.data ++ '"' :: ':' :: (serJ v ++
                ',' :: (serFields (JFields.fcons k2 v2 tl2) ++
                  '\x7d' :: rest))) := by
            simp [serFields, serQuoted, String.toList]
          have h2 : (serFields (JFields.fcons k v (JFields.fcons k2 v2 tl2))).length =
              (serStrBody k.data).length + 3 + (serJ v).length +
                (serFields (JFields.fcons k2 v2 tl2)).length + 1 := by
            simp [serFields, serQuoted, String.toList]
            omega
          have h1 : (serJ v).length < f := by omega
          have h2f : (serFields (JFields.fcons k2 v2 tl2)).length + 1 < f := by
            omega
          have hv := rtV v f
            (',' :: (serFields (JFields.fcons k2 v2 tl2) ++ '\x7d' :: rest))
            h1 rfl
          have hrec := rtF k2 v2 tl2 f rest h2f
          have hstr : parseStrBody (serStrBody k.data ++
              '"' :: ':' :: (serJ v ++
                ',' :: (serFields (JFields.fcons k2 v2 tl2) ++
                  '\x7d' :: rest))) =
              some (k.data, ':' :: (serJ v ++
                ',' :: (serFields (JFields.fcons k2 v2 tl2) ++
                  '\x7d' :: rest))) :=
            parseStrBody_ser k.data _
          rw [hs, parseFields_step]
          simp [hstr, hv, hrec, strmk_data]
termination_by _ v tl _ _ _ => 1 + sizeOf v + sizeOf tl
decreasing_by all_goals (simp_wf; try omega)

end

/-- Every rendered JSON value parses back to itself: the canonical form is a
fixed point of the codec. -/
theorem parseFull_toJSONStr (v : Json) : parseFull (toJSONStr v) = some v := by
  have hv := rtV v ((serJ v).length + 1) [] (by omega) rfl
  rw [List.append_nil] at hv
  have h1 : (toJSONStr v).toList = serJ v := rfl
  have h2 : (toJSONStr v).length = (serJ v).length := rfl
  simp only [parseFull, h1, h2, hv]

/-- Every rendered JSON value is a fixed point of canonicalization, so the
canonical strings of the round-trip claim are exactly the rendered values. -/
theorem canonicalize_fixed_point (v : Json) :
    canonicalize (toJSONStr v) = some (toJSONStr v) := by
  simp [canonicalize, parseFull_toJSONStr]

/-! ### The claims -/

/-- C1 (counterexample): after the successful pull of claim C1 the code does
not rebase.  On the concrete state stPend — one pending Tx commit above the
genesis gS, remote dataset at gS — a successful pull with new state id s2
leaves the local head a fresh parentless Genesis commit (the pending Tx
commit is discarded, not replayed on top of the new server state) and leaves
the remote dataset at gS rather than at the new genesis. -/
theorem C1_counterexample :
    requestSyncStep stPend respOk =
      ({ head := Commit.genesis "s2" kvEmpty (toHexCk 0) 0,
         remoteHead := some gS }, .ok ()) ∧
    parentsOf (requestSyncStep stPend respOk).1.head = [] ∧
    (requestSyncStep stPend respOk).1.remoteHead ≠
      some (requestSyncStep stPend respOk).1.head := by
  refine ⟨by decide, by decide, by decide⟩

/-- C1 (amended): after a successful pull — decode succeeded, the patch
applied to the head-genesis map, and the checksum verified — RequestSync
installs the fresh genesis commit built from the response directly as the
local head (SetHead, not fast-forward) and reloads; the remote dataset is
left unchanged and no rebase of pending local commits happens. -/
theorem C1_pull_installs_genesis_head (st : DBState) (resp : HTTPResp)
    (pr : PullResponse) (m : KVMap) (ck : Nat)
    (h200 : resp.status = 200) (hdec : resp.decoded = some pr)
    (hpatch : applyPatch (dataOf (findGenesis st.head)) pr.patch = .ok m)
    (hck : checksumFromString pr.checksum = some ck)
    (heq : cksum m = ck) :
    requestSyncStep st resp =
      ({ head := Commit.genesis pr.stateID m (toHexCk (cksum m)) 0,
         remoteHead := st.remoteHead }, .ok ()) := by
  simp [requestSyncStep, RequestSync, makeGenesis, h200, hdec, hpatch, hck,
    heq]

/-- Witness for C1: the amended statement evaluated on the concrete pending
state and the concrete successful response. -/
theorem C1_witness :
    (respOk.status = 200 ∧ respOk.decoded = some prOk ∧
      applyPatch (dataOf (findGenesis stPend.head)) prOk.patch = .ok kvEmpty ∧
      checksumFromString prOk.checksum = some 0 ∧ cksum kvEmpty = 0) ∧
    requestSyncStep stPend respOk =
      ({ head := Commit.genesis prOk.stateID kvEmpty (toHexCk (cksum kvEmpty)) 0,
         remoteHead := stPend.remoteHead }, .ok ()) :=
  ⟨⟨by decide, by decide, by decide, by decide, by decide⟩,
    C1_pull_installs_genesis_head stPend respOk prOk kvEmpty 0 (by decide)
      (by decide) (by decide) (by decide) (by decide)⟩

/-- C2: if the checksum of the patched map differs from the (well-formed)
checksum field of the decoded pull response, RequestSync fails with the
checksum-mismatch error and the database state — local head and remote
dataset both — is exactly what it was before the call. -/
theorem C2_checksum_mismatch_discards (st : DBState) (resp : HTTPResp)
    (pr : PullResponse) (m : KVMap) (ck : Nat)
    (h200 : resp.status = 200) (hdec : resp.decoded = some pr)
    (hpatch : applyPatch (dataOf (findGenesis st.head)) pr.patch = .ok m)
    (hck : checksumFromString pr.checksum = some ck)
    (hne : cksum m ≠ ck) :
    requestSyncStep st resp =
      (st, .error (SyncErr.checksumMismatch
        ("Checksum mismatch! Expected " ++ toHexCk ck ++ ", got " ++
          toHexCk (cksum m)))) := by
  simp [requestSyncStep, RequestSync, h200, hdec, hpatch, hck, hne]

/-- Witness for C2: a pull of the empty patch whose response claims the
all-a checksum; the state is returned untouched together with the mismatch
error. -/
theorem C2_witness :
    (respBadCk.status = 200 ∧ respBadCk.decoded = some prBadCk ∧
      applyPatch (dataOf (findGenesis stPend.head)) prBadCk.patch =
        .ok kvEmpty ∧
      checksumFromString prBadCk.checksum =
        some 0xaaaaaaaaaaaaaaaaaaaaaaaaaaaaaaaa ∧
      cksum kvEmpty ≠ 0xaaaaaaaaaaaaaaaaaaaaaaaaaaaaaaaa) ∧
    requestSyncStep stPend respBadCk =
      (stPend, .error (SyncErr.checksumMismatch
        ("Checksum mismatch! Expected " ++
          toHexCk 0xaaaaaaaaaaaaaaaaaaaaaaaaaaaaaaaa ++ ", got " ++
          toHexCk (cksum kvEmpty)))) :=
  ⟨⟨by decide, by decide, by decide, by decide, by decide⟩,
    C2_checksum_mismatch_discards stPend respBadCk prBadCk kvEmpty
      0xaaaaaaaaaaaaaaaaaaaaaaaaaaaaaaaa (by decide) (by decide) (by decide)
      (by decide) (by decide)⟩

/-- C3 (counterexample): exec of the user-defined function name add — a name
that does not begin with a dot — does not run a bundle function and return
its output; the db layer panics NON-INTERNAL TRANSACTIONS DISABLED FOR NOW. -/
theorem C3_counterexample :
    execInternal db0 0 "add" [Json.str "k", Json.num 2] =
      .error RErr.panicNonInternal := by decide

/-- C3 (amended): the sandboxed execution of user-defined bundle functions is
disabled in this snapshot: for every function name that does not begin with a
dot, exec panics NON-INTERNAL TRANSACTIONS DISABLED FOR NOW instead of
evaluating the named function; only the internal dot-marked transactions are
executed. -/
theorem C3_non_internal_panics (st : DBState) (date : Nat) (name : String)
    (args : List Json) (h : strStarts "." name = false) :
    execInternal st date name args = .error RErr.panicNonInternal := by
  simp [execInternal, execImpl, h]

/-- Witness for C3: the amended statement evaluated at the name add. -/
theorem C3_witness :
    strStarts "." "add" = false ∧
    execInternal db0 0 "add" [Json.str "k"] = .error RErr.panicNonInternal :=
  ⟨by decide, C3_non_internal_panics db0 0 "add" [Json.str "k"] (by decide)⟩

/-- C4: both terminating cases of rebase.  First, rebasing a commit onto a
forkpoint equal to that commit returns the commit referenced by onto.
Second, if the commit is not the forkpoint and the recursive rebase of its
basis returns that same basis (the ancestor did not move), rebase returns the
input commit unchanged — no Reorder commit is created. -/
theorem C4_rebase_terminating_cases (onto : Commit) (date : Nat)
    (c f b : Commit) :
    rebase onto date c (some c) = .ok onto ∧
    (c ≠ f → basisOf c = some b → rebase onto date b (some f) = .ok b →
      rebase onto date c (some f) = .ok c) := by
  constructor
  · simp only [rebase]
    rw [rebaseFrom.eq_def]
    simp
  · intro hne hb hrb
    simp only [rebase] at hrb ⊢
    cases c with
    | genesis sid d ck l => simp [basisOf] at hb
    | tx b1 d n a dat ck =>
        simp only [basisOf, Option.some.injEq] at hb
        subst hb
        rw [rebaseFrom.eq_def]
        simp [hne, hrb]
    | reorder b1 d s dat ck =>
        simp only [basisOf, Option.some.injEq] at hb
        subst hb
        rw [rebaseFrom.eq_def]
        simp [hne, hrb]

/-- Witness for C4: the dest-fast-forward scenario of the rebase tests — onto
is the genesis gA, the head is the single Tx commit tA above it.  Case one at
the forkpoint tA, case two with basis gA already rebased to itself. -/
theorem C4_witness :
    (tA ≠ gA ∧ basisOf tA = some gA ∧ rebase gA 0 gA (some gA) = .ok gA) ∧
    rebase gA 0 tA (some tA) = .ok gA ∧
    rebase gA 0 tA (some gA) = .ok tA :=
  ⟨⟨by decide, by decide, by decide⟩,
    (C4_rebase_terminating_cases gA 0 tA gA gA).1,
    (C4_rebase_terminating_cases gA 0 tA gA gA).2 (by decide) (by decide)
      (by decide)⟩

/-- C5: a zero forkPoint makes rebase compute the forkpoint as the common
ancestor of onto and commit, and when the two commits have no common ancestor
the rebase fails with an error instead of producing a commit. -/
theorem C5_no_common_ancestor_fails (onto : Commit) (date : Nat) (c : Commit)
    (h : commonAncestor onto c = none) :
    rebase onto date c none = .error RErr.noCommonAncestor := by
  simp [rebase, h]

/-- Witness for C5: two unrelated genesis commits share no ancestor and their
rebase fails. -/
theorem C5_witness :
    commonAncestor gA gB = none ∧
    rebase gA 0 gB none = .error RErr.noCommonAncestor :=
  ⟨by decide, C5_no_common_ancestor_fails gA 0 gB (by decide)⟩

/-- C6: for a non-200 pull response, a 403 produces the auth error that the
dispatcher converts into a successful response carrying the badAuth message
(and no root), while any other status fails the dispatch with an error whose
detail is the status line followed by the response body. -/
theorem C6_non200_status (st : DBState) (resp : HTTPResp)
    (h : resp.status ≠ 200) :
    (resp.status = 403 →
      dispatchRequestSync st resp =
        .ok ({ root := none,
               badAuth := some (statusText resp ++ ": " ++ resp.bodyRaw) },
          st)) ∧
    (resp.status ≠ 403 →
      dispatchRequestSync st resp =
        .error (statusText resp ++ ": " ++ resp.bodyRaw)) := by
  constructor
  · intro h403
    simp [dispatchRequestSync, RequestSync, h, h403]
  · intro hne
    simp [dispatchRequestSync, RequestSync, syncErrMsg, h, hne]

/-- Witness for C6: the 403 response becomes a badAuth response, the 400
response becomes a dispatch error carrying status and body. -/
theorem C6_witness :
    (resp403.status ≠ 200 ∧ resp403.status = 403 ∧ resp400.status ≠ 200 ∧
      resp400.status ≠ 403) ∧
    dispatchRequestSync db0 resp403 =
      .ok ({ root := none, badAuth := some "403 Forbidden: Bad auth token" },
        db0) ∧
    dispatchRequestSync db0 resp400 =
      .error "400 Bad Request: You have made an invalid request" :=
  ⟨⟨by decide, by decide, by decide, by decide⟩,
    (C6_non200_status db0 resp403 (by decide)).1 (by decide),
    (C6_non200_status db0 resp400 (by decide)).2 (by decide)⟩

/-- C7: for every canonical JSON byte string s (a fixed point of
canonicalization) and every key k, Put of s at k succeeds and a subsequent Get
of k returns exactly s, byte for byte. -/
theorem C7_put_get_roundtrip (st : DBState) (date : Nat) (k s : String)
    (h : canonicalize s = some s) :
    (Put st date k s).map (fun st1 => Get st1 k) = .ok (some s) := by
  obtain ⟨v, hv, hs⟩ : ∃ v, parseFull s = some v ∧ toJSONStr v = s := by
    unfold canonicalize at h
    cases hp : parseFull s with
    | none => rw [hp] at h; simp at h
    | some v =>
        rw [hp] at h
        simp at h
        exact ⟨v, rfl, h⟩
  have hput : Put st date k s = .ok
      { st with head := (makeTx st.head date ".putValue" [Json.str k, v]
          (kvSet k v (dataOf st.head))
          (checksumStr (kvSet k v (dataOf st.head)))) } := by
    simp [Put, canonicalize, hv, hs, fromJSON, execInternal, execImpl,
      starts_dot_put]
  rw [hput]
  simp [Except.map, Get, makeTx, dataOf, kvGet_set, hs]

/-- Witness for C7: putting the canonical string literal bar under key foo
returns exactly those bytes. -/
theorem C7_witness :
    canonicalize "\"bar\"" = some "\"bar\"" ∧
    (Put db0 0 "foo" "\"bar\"").map (fun st1 => Get st1 "foo") =
      .ok (some "\"bar\"") :=
  ⟨by decide, C7_put_get_roundtrip db0 0 "foo" "\"bar\"" (by decide)⟩

/-- C8: a transaction execution whose body reports no write (isWrite false)
appends no Tx commit — the state, and in particular the head, is returned
unchanged; and when the body reports a write, the new head is exactly the Tx
commit built from the basis. -/
theorem C8_read_only_no_commit (st : DBState) (date : Nat) (function : String)
    (args : List Json) (nd : KVMap) (nc : String) (out : Option Json) :
    (execImpl st.head function args = .ok (nd, nc, out, false) →
      execInternal st date function args = .ok (out, st)) ∧
    (execImpl st.head function args = .ok (nd, nc, out, true) →
      execInternal st date function args =
        .ok (out, { st with head := makeTx st.head date function args nd nc })) := by
  constructor <;> intro h <;> simp [execInternal, h]

/-- Witness for C8: the unknown internal name .nop falls through the switch
as a read-only execution and leaves the state untouched; .delValue reports a
write and installs a Tx commit. -/
theorem C8_witness :
    (execImpl db0.head ".nop" [] = .ok (kvEmpty, "", none, false) ∧
      execInternal db0 0 ".nop" [] = .ok (none, db0)) ∧
    (execImpl db0.head ".delValue" [Json.str "a"] =
        .ok (kvEmpty, toHexCk 0, some (Json.bool false), true) ∧
      execInternal db0 0 ".delValue" [Json.str "a"] =
        .ok (some (Json.bool false),
          { db0 with head :=
              (makeTx db0.head 0 ".delValue" [Json.str "a"] kvEmpty
                (toHexCk 0)) })) :=
  ⟨⟨by decide,
      (C8_read_only_no_commit db0 0 ".nop" [] kvEmpty "" none).1 (by decide)⟩,
    ⟨by decide,
      (C8_read_only_no_commit db0 0 ".delValue" [Json.str "a"] kvEmpty
        (toHexCk 0) (some (Json.bool false))).2 (by decide)⟩⟩

/-- C9: Del returns true exactly when the key was present in the head map
before the call, and after a successful Del the key is absent from the new
head map. -/
theorem C9_del_semantics (st : DBState) (date : Nat) (k : String) (b : Bool)
    (st1 : DBState) (h : Del st date k = .ok (b, st1)) :
    (b = true ↔ kvHas (dataOf st.head) k = true) ∧
    kvHas (dataOf st1.head) k = false := by
  have hd : Del st date k = .ok (kvHas (dataOf st.head) k,
      { st with head := (makeTx st.head date ".delValue" [Json.str k]
          (kvRemove k (dataOf st.head))
          (checksumStr (kvRemove k (dataOf st.head)))) }) := by
    simp [Del, execInternal, execImpl, starts_dot_del, del_ne_put]
  rw [hd] at h
  simp only [Except.ok.injEq, Prod.mk.injEq] at h
  obtain ⟨hb, hst⟩ := h
  subst hb
  subst hst
  exact ⟨Iff.rfl, by simp [makeTx, dataOf, kvHas_remove]⟩

/-- Witness for C9: deleting foo from a database that binds it returns true
and leaves the key absent. -/
theorem C9_witness :
    Del dbFoo 0 "foo" = .ok (true,
      { dbFoo with head := (makeTx dbFoo.head 0 ".delValue" [Json.str "foo"]
          kvEmpty (toHexCk 0)) }) ∧
    ((true = true) ↔ kvHas (dataOf dbFoo.head) "foo" = true) ∧
    kvHas (dataOf (makeTx dbFoo.head 0 ".delValue" [Json.str "foo"] kvEmpty
      (toHexCk 0))) "foo" = false :=
  ⟨by decide,
    C9_del_semantics dbFoo 0 "foo" true
      { dbFoo with head := (makeTx dbFoo.head 0 ".delValue" [Json.str "foo"]
          kvEmpty (toHexCk 0)) } (by decide)⟩

/-- C10: Del of an absent key is still a write: it installs a Tx commit with
the .delValue meta whose map is the basis map unchanged — so the head moves
to a different commit although no key or value changed — and the call
returns false. -/
theorem C10_del_absent_still_writes (st : DBState) (date : Nat) (k : String)
    (h : kvHas (dataOf st.head) k = false) :
    Del st date k = .ok (false,
      { st with head := (makeTx st.head date ".delValue" [Json.str k]
          (dataOf st.head) (checksumStr (dataOf st.head))) }) ∧
    dataOf (makeTx st.head date ".delValue" [Json.str k] (dataOf st.head)
      (checksumStr (dataOf st.head))) = dataOf st.head ∧
    makeTx st.head date ".delValue" [Json.str k] (dataOf st.head)
      (checksumStr (dataOf st.head)) ≠ st.head := by
  refine ⟨?_, by simp [makeTx, dataOf],
    tx_ne_basis st.head date ".delValue" [Json.str k] (dataOf st.head)
      (checksumStr (dataOf st.head))⟩
  simp [Del, execInternal, execImpl, starts_dot_del, del_ne_put, h,
    kvRemove_absent _ _ h]

/-- Witness for C10: deleting foo from the fresh empty database returns
false yet installs a new Tx head over the old genesis. -/
theorem C10_witness :
    kvHas (dataOf db0.head) "foo" = false ∧
    (Del db0 0 "foo" = .ok (false,
      { db0 with head := (makeTx db0.head 0 ".delValue" [Json.str "foo"]
          (dataOf db0.head) (checksumStr (dataOf db0.head))) }) ∧
    dataOf (makeTx db0.head 0 ".delValue" [Json.str "foo"] (dataOf db0.head)
      (checksumStr (dataOf db0.head))) = dataOf db0.head ∧
    makeTx db0.head 0 ".delValue" [Json.str "foo"] (dataOf db0.head)
      (checksumStr (dataOf db0.head)) ≠ db0.head) :=
  ⟨by decide, C10_del_absent_still_writes db0 0 "foo" (by decide)⟩

end Replicache
